import Mathlib

/-!
Verification of the gnucash2ledger converter (gnucash2ledger.py).

The Python source is shallowly embedded: strings are lists of characters
(`Str`), Python exceptions are modelled by `Option` (a raised exception is
`none`), the mutable account registry is a list of `Account` records passed
explicitly, and Python's stable `sorted` is modelled by the (stable)
insertion sort from Mathlib.  Python slicing with negative indices is
reproduced exactly, including the corner case that `s[:-0]` is the empty
string and `s[-0:]` is the whole string.
-/

/-- Strings of the Python program are modelled as lists of characters. -/
abbrev Str := List Char

/-- Python `rawValue.split(sep)` for a one-character separator: split on every
occurrence, keeping empty fields, so the result always has one more element
than the number of separators. -/
def pySplit (sep : Char) : Str → List Str
  | [] => [[]]
  | c :: rest =>
    match pySplit sep rest with
    | [] => [[]]
    | h :: t => if c = sep then [] :: h :: t else (c :: h) :: t

/-- Python slice `s[:-n]` for a natural `n`: everything but the last `n`
characters, EXCEPT that for `n = 0` the slice `s[:0]` is empty (because
`-0 == 0` in Python). -/
def pyDropLast (s : Str) (n : Nat) : Str :=
  if n = 0 then [] else s.take (s.length - n)

/-- Python slice `s[-n:]` for a natural `n`: the last `n` characters, EXCEPT
that for `n = 0` the slice `s[0:]` is the whole string. -/
def pyTakeLast (s : Str) (n : Nat) : Str :=
  if n = 0 then s else s.drop (s.length - n)

/-- Body of `Split.convertValue` after the `split("/")` succeeded with exactly
two fields `intValue` and `decPoint` (source lines 242-251):
`n = len(decPoint) - 1`; strip a leading minus; left-pad with zeros to at
least `n+1` digits; re-attach the minus; return
`intValue[:-n] + "." + intValue[-n:]`. -/
def convertBody (intValue decPoint : Str) : Str :=
  let n := decPoint.length - 1
  let iv1 := if intValue.take 1 = ['-'] then intValue.drop 1 else intValue
  let iv2 := if iv1.length < n + 1 then List.replicate (n + 1 - iv1.length) '0' ++ iv1 else iv1
  let iv3 := if intValue.take 1 = ['-'] then '-' :: iv2 else iv2
  pyDropLast iv3 n ++ '.' :: pyTakeLast iv3 n

/-- Embedding of `Split.convertValue` (source lines 239-251).  The destructuring
`(intValue, decPoint) = rawValue.split("/")` raises `ValueError` unless the
split yields exactly two fields; a raised exception is `none`. -/
def Split.convertValue (rawValue : Str) : Option Str :=
  match pySplit '/' rawValue with
  | [intValue, decPoint] => some (convertBody intValue decPoint)
  | _ => none

/-- Modelled from the spec's words (claim C1), for comparison with
`Split.convertValue`: let `n` be the digit count of the denominator minus
one; strip a leading minus sign; left-pad the numerator with zeros until it
has at least `n+1` digits; re-attach the minus sign; insert a decimal point
`n` digits from the end. -/
def decodeRationalSpec (N D : Str) : Str :=
  let n := D.length - 1
  let mag := if N.take 1 = ['-'] then N.drop 1 else N
  let padded := if mag.length < n + 1 then List.replicate (n + 1 - mag.length) '0' ++ mag else mag
  let signed := if N.take 1 = ['-'] then '-' :: padded else padded
  signed.take (signed.length - n) ++ '.' :: signed.drop (signed.length - n)

/-- The magnitude part of a numerator string: the string with a leading
minus sign removed, if present. -/
def stripSign (s : Str) : Str :=
  if s.take 1 = ['-'] then s.drop 1 else s

/-- A signed decimal-digit string: an optional leading minus sign followed by
at least one decimal digit. -/
def isSignedDigitStr (s : Str) : Prop :=
  stripSign s ≠ [] ∧ ∀ c ∈ stripSign s, c.isDigit

instance (s : Str) : Decidable (isSignedDigitStr s) := by
  unfold isSignedDigitStr; infer_instance

/-- The `Account` objects held in `accountDb` (source lines 107-121).  The
construction-time commodity lookup is flattened into the `commodity` field;
`used` starts `false` and is the only field ever mutated. -/
structure Account where
  id : Str
  name : Str
  description : Str
  type : Str
  parent : Option Str
  commodity : Str
  used : Bool
deriving DecidableEq

/-- The XML fields an account is built from. -/
structure AccountRec where
  id : Str
  name : Str
  description : Str
  type : Str
  parent : Option Str
  commodity : Str
deriving DecidableEq

/-- Embedding of `Account.__init__` without the registry side effect: every field copied
from the document, `used` initialised to `False` (source line 116). -/
def mkAccount (r : AccountRec) : Account :=
  { id := r.id, name := r.name, description := r.description, type := r.type,
    parent := r.parent, commodity := r.commodity, used := false }

/-- The registry write `accountDb[self.id] = self` of `Account.__init__`:
a Python dict upsert keeps the position of an existing key and appends a new
key at the end. -/
def registerAccount (db : List Account) (a : Account) : List Account :=
  if ∃ b ∈ db, b.id = a.id then db.map (fun b => if b.id = a.id then a else b)
  else db ++ [a]

/-- Loading the `gnc:account` elements in document order (source lines
386-390). -/
def loadAccounts (recs : List AccountRec) : List Account :=
  recs.foldl (fun db r => registerAccount db (mkAccount r)) []

/-- Dictionary lookup `accountDb[i]`; `none` models the `KeyError`. -/
def dbFind (db : List Account) (i : Str) : Option Account :=
  db.find? (fun a => a.id == i)

/-- The attribute write `accountDb[accountId].used = True` (source line 172):
the account object with the given id is mutated in place. -/
def markUsed (db : List Account) (i : Str) : List Account :=
  db.map (fun a => if a.id = i then { a with used := true } else a)

/-- Embedding of `Account.fullName` (source lines 127-132), with an explicit recursion
budget standing in for Python's call stack: the parent chain is followed
until an account has no parent or a ROOT-typed parent; a missing parent id
raises `KeyError` (`none`), and exhausting the budget models the
non-termination of a cyclic chain. -/
def Account.fullName : Nat → (Str → Option Account) → Account → Option Str
  | 0, _, _ => none
  | fuel + 1, db, a =>
    match a.parent with
    | none => some a.name
    | some pid =>
      match db pid with
      | none => none
      | some p =>
        if p.type = "ROOT".toList then some a.name
        else
          match Account.fullName fuel db p with
          | none => none
          | some pre => some (pre ++ ':' :: a.name)

/-- Embedding of `Account.__str__` (source lines 134-141). -/
def Account.str (db : List Account) (a : Account) : Option Str :=
  (Account.fullName db.length (dbFind db) a).map (fun fn =>
    "account ".toList ++ fn ++ "\n    note ".toList ++ a.description ++
      " (type: ".toList ++ a.type ++ ")\n".toList)

/-- A transaction split (source lines 144-180) with the resolved values:
`commodity` is the transaction's commodity handed to the constructor,
`value` and `quantity` are the decoded decimal strings. -/
structure Split where
  reconciled : Bool
  accountId : Str
  memo : Option Str
  allCleared : Bool
  useSymbols : Bool
  payeeMetaData : Bool
  commodity : Str
  value : Str
  quantity : Str
deriving DecidableEq

/-- The XML fields a split is built from: the reconciled-state text, the
account id, the optional memo element text, and the two rational strings. -/
structure SplitRec where
  reconciledState : Str
  account : Str
  memo : Option Str
  value : Str
  quantity : Str
deriving DecidableEq

/-- The local `realValue` of `Split.__str__` (source line 211): the value string with a
leading minus sign stripped. -/
def Split.realValue (v : Str) : Str :=
  if v.take 1 = ['-'] then v.drop 1 else v

/-- The reconciliation flag of `Split.__str__` (source lines 220-223). -/
def Split.flagStr (s : Split) : Str :=
  if s.reconciled ∧ ¬ s.allCleared then "* ".toList else []

/-- The amount field of `Split.__str__` (source lines 199-216).  `fmt` stands
for Python's `"{:,.2f}".format(float(.))`: the IEEE-float re-rendering of a
decimal string with thousands separators and two fraction digits, which the
claims under verification never constrain. -/
def Split.valueStr (fmt : Str → Str) (s : Split) (acctCommodity : Str) : Str :=
  if s.commodity = acctCommodity then
    if s.useSymbols then s.commodity ++ fmt s.value
    else fmt s.value ++ ' ' :: s.commodity
  else
    if s.useSymbols then
      acctCommodity ++ s.quantity ++ " @@ ".toList ++ s.commodity ++ Split.realValue s.value
    else
      s.quantity ++ ' ' :: acctCommodity ++ " @@ ".toList ++ Split.realValue s.value ++
        ' ' :: s.commodity

/-- The local `numSpaces` of `Split.__str__` (source line 225), a Python `int` that may
go negative. -/
def Split.numSpaces (flagLen nameLen valueLen : Nat) : Int :=
  76 - (flagLen : Int) - (nameLen : Int) - (valueLen : Int)

/-- The memo tail of `Split.__str__` (source lines 227-229). -/
def Split.memoStr (s : Split) : Str :=
  match s.memo with
  | some m => if s.payeeMetaData then "  ; Payee: ".toList ++ m else []
  | none => []

/-- Embedding of `Split.__str__` (source lines 193-237).  `" " * numSpaces` of a negative
count is empty, so the gap is `1 + max(numSpaces, 0)` spaces; account lookup
or an unresolvable full name raises (`none`). -/
def Split.str (fmt : Str → Str) (db : List Account) (s : Split) : Option Str :=
  match dbFind db s.accountId with
  | none => none
  | some acc =>
    match Account.fullName db.length (dbFind db) acc with
    | none => none
    | some accountName =>
      let value := Split.valueStr fmt s acc.commodity
      let flag := Split.flagStr s
      let spaces : Str :=
        ' ' :: List.replicate (Split.numSpaces flag.length accountName.length value.length).toNat ' '
      some ("    ".toList ++ flag ++ accountName ++ spaces ++ value ++ Split.memoStr s)

/-- Embedding of `Split.__init__` (source lines 146-180) as a state transformer on the
registry: the account is looked up and its `used` flag set to `True` BEFORE
the value and quantity strings are decoded, so a decoding failure (`none` in
the second component) leaves the mutated registry behind. -/
def Split.init (commodity : Str) (allCleared useSymbols payeeMetaData : Bool)
    (db : List Account) (sr : SplitRec) : List Account × Option Split :=
  match dbFind db sr.account with
  | none => (db, none)
  | some _ =>
    let db1 := markUsed db sr.account
    match Split.convertValue sr.value with
    | none => (db1, none)
    | some v =>
      match Split.convertValue sr.quantity with
      | none => (db1, none)
      | some q =>
        (db1, some { reconciled := sr.reconciledState = "y".toList, accountId := sr.account,
                     memo := sr.memo, allCleared := allCleared, useSymbols := useSymbols,
                     payeeMetaData := payeeMetaData, commodity := commodity, value := v,
                     quantity := q })

/-- A transaction (source lines 254-290): date as an abstract ordinal,
description, commodity and the splits in document order.  `cleared` holds the
`allCleared` flag passed to the constructor. -/
structure Transaction where
  date : Nat
  cleared : Bool
  commodity : Str
  description : Str
  splits : List Split
deriving DecidableEq

/-- The XML fields a transaction is built from. -/
structure TxRec where
  date : Nat
  commodity : Str
  description : Str
  splits : List SplitRec
deriving DecidableEq

/-- Constructing the splits of one transaction in document order, threading
the registry; the first failure aborts (source lines 284-290). -/
def initSplits (commodity : Str) (allCleared useSymbols payeeMetaData : Bool)
    (db : List Account) : List SplitRec → List Account × Option (List Split)
  | [] => (db, some [])
  | sr :: rest =>
    match Split.init commodity allCleared useSymbols payeeMetaData db sr with
    | (db1, none) => (db1, none)
    | (db1, some s) =>
      match initSplits commodity allCleared useSymbols payeeMetaData db1 rest with
      | (db2, none) => (db2, none)
      | (db2, some ss) => (db2, some (s :: ss))

/-- Embedding of `Transaction.__init__` (source lines 256-290). -/
def Transaction.init (allCleared useSymbols payeeMetaData : Bool) (db : List Account)
    (tr : TxRec) : List Account × Option Transaction :=
  match initSplits tr.commodity allCleared useSymbols payeeMetaData db tr.splits with
  | (db1, none) => (db1, none)
  | (db1, some ss) =>
    (db1, some { date := tr.date, cleared := allCleared, commodity := tr.commodity,
                 description := tr.description, splits := ss })

/-- Loading the `gnc:transaction` elements in document order (source lines
393-401). -/
def loadTransactions (allCleared useSymbols payeeMetaData : Bool) (db : List Account) :
    List TxRec → List Account × Option (List Transaction)
  | [] => (db, some [])
  | tr :: rest =>
    match Transaction.init allCleared useSymbols payeeMetaData db tr with
    | (db1, none) => (db1, none)
    | (db1, some t) =>
      match loadTransactions allCleared useSymbols payeeMetaData db1 rest with
      | (db2, none) => (db2, none)
      | (db2, some ts) => (db2, some (t :: ts))

/-- Embedding of `GnucashData.__init__` restricted to accounts and transactions (source
lines 358-401): accounts first, then the transactions, whose splits mark
accounts used as a side effect. -/
def loadBook (allCleared useSymbols payeeMetaData : Bool) (accRecs : List AccountRec)
    (txRecs : List TxRec) : List Account × Option (List Transaction) :=
  loadTransactions allCleared useSymbols payeeMetaData (loadAccounts accRecs) txRecs

/-- All split records of a document, in processing order. -/
def allSplitsOf : List TxRec → List SplitRec
  | [] => []
  | tr :: rest => tr.splits ++ allSplitsOf rest

/-- Marking an account used exactly when some split record references it;
the closed form of the registry after a successful load. -/
def bumpUsed (srs : List SplitRec) (a : Account) : Account :=
  if ∃ sr ∈ srs, a.id = sr.account then { a with used := true } else a

/-- Python `"\n".join`. -/
def joinNL : List Str → Str
  | [] => []
  | [s] => s
  | s :: rest => s ++ '\n' :: joinNL rest

/-- Rendering a list of splits, propagating a failure (`none`). -/
def renderSplits (fmt : Str → Str) (db : List Account) : List Split → Option (List Str)
  | [] => some []
  | s :: rest =>
    match Split.str fmt db s, renderSplits fmt db rest with
    | some l, some ls => some (l :: ls)
    | _, _ => none

/-- Embedding of `Transaction.__str__` (source lines 292-318).  `dateFmt` stands for
`strftime` with the configured date format. -/
def Transaction.str (fmt : Str → Str) (dateFmt : Nat → Str) (db : List Account)
    (t : Transaction) : Option Str :=
  (renderSplits fmt db t.splits).map (fun ls =>
    dateFmt t.date ++ (if t.cleared then " * ".toList else [' ']) ++ t.description ++
      '\n' :: (joinNL ls ++ ['\n']))

/-- The sort key comparison of `LedgerConvertor.addTransactions` (source line
458): transactions are compared by date alone. -/
def dateLe (a b : Transaction) : Prop := a.date ≤ b.date

instance : DecidableRel dateLe := fun a b => inferInstanceAs (Decidable (a.date ≤ b.date))

instance : IsTotal Transaction dateLe := ⟨fun a b => Nat.le_total a.date b.date⟩

instance : IsTrans Transaction dateLe := ⟨fun _ _ _ => Nat.le_trans⟩

/-- Python's `sorted(transactions, key=lambda x: x.date)` (source lines
456-458): a stable sort by date only; the stable sort of a list by a total
preorder is unique, so Mathlib's insertion sort is extensionally Timsort. -/
def sortTransactions (ts : List Transaction) : List Transaction :=
  List.insertionSort dateLe ts

/-- Embedding of `LedgerConvertor.addTransactions` (source lines 449-463): header, then
each date-sorted transaction preceded by a blank line. -/
def addTransactions (fmt : Str → Str) (dateFmt : Nat → Str) (db : List Account)
    (ts : List Transaction) : Option Str :=
  (renderTxns fmt dateFmt db (sortTransactions ts)).map (fun bs =>
    "\n\n;;Transactions\n\n".toList ++ (bs.map (fun b => '\n' :: b)).flatten)
where
  renderTxns (fmt : Str → Str) (dateFmt : Nat → Str) (db : List Account) :
      List Transaction → Option (List Str)
    | [] => some []
    | t :: rest =>
      match Transaction.str fmt dateFmt db t, renderTxns fmt dateFmt db rest with
      | some b, some bs => some (b :: bs)
      | _, _ => none

/-- Rendering a list of accounts, propagating a failure. -/
def renderAccounts (db : List Account) : List Account → Option (List Str)
  | [] => some []
  | a :: rest =>
    match Account.str db a, renderAccounts db rest with
    | some b, some bs => some (b :: bs)
    | _, _ => none

/-- Embedding of `LedgerConvertor.addAccounts` (source lines 434-447): header, then a
block preceded by a blank line for exactly the accounts with `used == True`,
in registry order. -/
def addAccounts (db : List Account) : Option Str :=
  (renderAccounts db (db.filter (fun a => a.used))).map (fun bs =>
    "\n\n;; Account Definitions\n\n".toList ++ (bs.map (fun b => '\n' :: b)).flatten)

/-- Embedding of `getCurrencySymbol` (source lines 492-518).  `getSymbol` stands for the
external `CurrencySymbols.get_symbol` table lookup, returning `none` for an
unrecognized code; `x or currencyCode` returns the code whenever the lookup
result is falsy (`None` or the empty string). -/
def getCurrencySymbol (getSymbol : Str → Option Str) (code : Str) : Str :=
  match getSymbol code with
  | some s => if s = [] then code else s
  | none => code

-- ### Concrete fixtures used by the witnesses

/-- A concrete stand-in for the external symbol table: it knows `USD` only. -/
def exSymbolTable : Str → Option Str :=
  fun c => if c = "USD".toList then some ("$".toList) else none

/-- A ROOT-typed top-level account. -/
def exRoot : Account :=
  { id := "r1".toList, name := "Root".toList, description := [], type := "ROOT".toList,
    parent := none, commodity := "USD".toList, used := false }

/-- An ASSET account whose parent is the ROOT account. -/
def exAssets : Account :=
  { id := "as1".toList, name := "Assets".toList, description := [], type := "ASSET".toList,
    parent := some ("r1".toList), commodity := "USD".toList, used := false }

/-- A bank account under `Assets`. -/
def exChecking : Account :=
  { id := "ch1".toList, name := "Checking".toList, description := [], type := "BANK".toList,
    parent := some ("as1".toList), commodity := "USD".toList, used := false }

/-- A three-level registry: ROOT, Assets, Checking. -/
def exTree : List Account := [exRoot, exAssets, exChecking]

/-- A split record whose value string has no slash, so decoding fails. -/
def exBadSplitRec : SplitRec :=
  { reconciledState := "n".toList, account := "r1".toList, memo := none,
    value := "125".toList, quantity := "125".toList }

/-- An account holding EUR, to exercise the currency-conversion branch. -/
def exAcctEUR : Account :=
  { id := "e1".toList, name := "Assets".toList, description := [], type := "ASSET".toList,
    parent := none, commodity := "EUR".toList, used := true }

/-- A currency-conversion split: quantity 100.00 EUR, value -110.00 in the
transaction commodity USD. -/
def exConvSplit : Split :=
  { reconciled := false, accountId := "e1".toList, memo := none, allCleared := false,
    useSymbols := false, payeeMetaData := false, commodity := "USD".toList,
    value := "-110.00".toList, quantity := "100.00".toList }

/-- A reconciled split rendered without the all-cleared override. -/
def exRecSplit : Split :=
  { reconciled := true, accountId := "e1".toList, memo := none, allCleared := false,
    useSymbols := false, payeeMetaData := false, commodity := "EUR".toList,
    value := "12.50".toList, quantity := "12.50".toList }

/-- A cleared transaction with no splits. -/
def exTxn : Transaction :=
  { date := 5, cleared := true, commodity := "EUR".toList,
    description := "Groceries".toList, splits := [] }

/-- A transaction dated 7 with description `a`. -/
def exTxnA : Transaction :=
  { date := 7, cleared := false, commodity := "USD".toList, description := "a".toList,
    splits := [] }

/-- A transaction dated 3 with description `b`, listed before `c` in the
document. -/
def exTxnB : Transaction :=
  { date := 3, cleared := false, commodity := "USD".toList, description := "b".toList,
    splits := [] }

/-- A transaction dated 3 with description `c`, listed after `b`. -/
def exTxnC : Transaction :=
  { date := 3, cleared := false, commodity := "USD".toList, description := "c".toList,
    splits := [] }

/-- A document order that is not date order and has a date tie. -/
def exTs : List Transaction := [exTxnA, exTxnB, exTxnC]

/-- Account record for a referenced account. -/
def exCashRec : AccountRec :=
  { id := "a1".toList, name := "Cash".toList, description := [], type := "ASSET".toList,
    parent := none, commodity := "USD".toList }

/-- Account record for an account no split references. -/
def exIgnoredRec : AccountRec :=
  { id := "b1".toList, name := "Ignored".toList, description := [], type := "EXPENSE".toList,
    parent := none, commodity := "USD".toList }

/-- A well-formed split record referencing the Cash account. -/
def exSplitRec1 : SplitRec :=
  { reconciledState := "y".toList, account := "a1".toList, memo := none,
    value := "100/100".toList, quantity := "100/100".toList }

/-- A one-transaction document body. -/
def exTxRec1 : TxRec :=
  { date := 1, commodity := "USD".toList, description := "t".toList, splits := [exSplitRec1] }

/-- The Cash account after the load: marked used. -/
def exCashUsed : Account :=
  { id := "a1".toList, name := "Cash".toList, description := [], type := "ASSET".toList,
    parent := none, commodity := "USD".toList, used := true }

/-- The registry after loading the two accounts and the one transaction. -/
def exDbAfter : List Account := [exCashUsed, mkAccount exIgnoredRec]

/-- The split object the load constructs. -/
def exSplitAfter : Split :=
  { reconciled := true, accountId := "a1".toList, memo := none, allCleared := false,
    useSymbols := false, payeeMetaData := false, commodity := "USD".toList,
    value := "1.00".toList, quantity := "1.00".toList }

/-- The transaction object the load constructs. -/
def exTxnAfter : Transaction :=
  { date := 1, cleared := false, commodity := "USD".toList, description := "t".toList,
    splits := [exSplitAfter] }

-- ### Lemmas about the Python string-splitting model

theorem pySplit_ne_nil (sep : Char) (l : Str) : pySplit sep l ≠ [] := by
  cases l with
  | nil => simp [pySplit]
  | cons c rest =>
    unfold pySplit
    cases h : pySplit sep rest with
    | nil => simp
    | cons h t => dsimp; split <;> simp

theorem pySplit_of_not_mem (sep : Char) (l : Str) (h : sep ∉ l) :
    pySplit sep l = [l] := by
  induction l with
  | nil => rfl
  | cons c rest ih =>
    have hc : c ≠ sep := fun hc => h (hc ▸ List.mem_cons_self c rest)
    have hrest : sep ∉ rest := fun hr => h (List.mem_cons_of_mem c hr)
    unfold pySplit
    rw [ih hrest]
    simp [hc]

theorem pySplit_append (sep : Char) (N D : Str) (hN : sep ∉ N) (hD : sep ∉ D) :
    pySplit sep (N ++ sep :: D) = [N, D] := by
  induction N with
  | nil =>
    simp only [List.nil_append]
    unfold pySplit
    rw [pySplit_of_not_mem sep D hD]
    simp
  | cons c rest ih =>
    have hc : c ≠ sep := fun hc => hN (hc ▸ List.mem_cons_self c rest)
    have hrest : sep ∉ rest := fun hr => hN (List.mem_cons_of_mem c hr)
    simp only [List.cons_append]
    unfold pySplit
    rw [ih hrest]
    simp [hc]

theorem not_slash_of_digit {c : Char} (h : c.isDigit) : c ≠ '/' := by
  intro hc
  subst hc
  simp [Char.isDigit] at h

theorem not_slash_mem_of_signed {N : Str} (h : isSignedDigitStr N) : '/' ∉ N := by
  intro hmem
  obtain ⟨hne, hdig⟩ := h
  unfold stripSign at hdig
  by_cases hs : N.take 1 = ['-']
  · rw [if_pos hs] at hdig
    cases N with
    | nil => simp at hs
    | cons c rest =>
      simp only [List.take_succ_cons, List.take_zero] at hs
      have hc : c = '-' := by simpa using hs
      rcases List.mem_cons.mp hmem with h1 | h1
      · rw [← h1] at hc; simp at hc
      · exact not_slash_of_digit (hdig '/' (by simpa using h1)) rfl
  · rw [if_neg hs] at hdig
    exact not_slash_of_digit (hdig '/' hmem) rfl

theorem not_slash_mem_of_digits {D : Str} (h : ∀ c ∈ D, c.isDigit) : '/' ∉ D := by
  intro hmem
  exact not_slash_of_digit (h '/' hmem) rfl

theorem pyDropLast_of_ne {n : Nat} (s : Str) (h : n ≠ 0) :
    pyDropLast s n = s.take (s.length - n) := by
  simp [pyDropLast, h]

theorem pyTakeLast_of_ne {n : Nat} (s : Str) (h : n ≠ 0) :
    pyTakeLast s n = s.drop (s.length - n) := by
  simp [pyTakeLast, h]

/-- C1: on a numerator and a denominator of at least two digits, the decoder
agrees with the spec's algorithm. -/
theorem convertValue_eq_spec (N D : Str) (hN : isSignedDigitStr N)
    (hD : ∀ c ∈ D, c.isDigit) (hlen : 2 ≤ D.length) :
    Split.convertValue (N ++ '/' :: D) = some (decodeRationalSpec N D) := by
  unfold Split.convertValue
  rw [pySplit_append '/' N D (not_slash_mem_of_signed hN) (not_slash_mem_of_digits hD)]
  show some (convertBody N D) = some (decodeRationalSpec N D)
  have hne : D.length - 1 ≠ 0 := by omega
  unfold convertBody decodeRationalSpec
  simp only [pyDropLast_of_ne _ hne, pyTakeLast_of_ne _ hne]

theorem eq_neg_cons_of_take1 {s : Str} (h : s.take 1 = ['-']) : s = '-' :: s.drop 1 := by
  cases s with
  | nil => simp at h
  | cons c t =>
    simp only [List.take_succ_cons, List.take_zero] at h
    have : c = '-' := by simpa using h
    simp [this]

/-- C2 (corrected): on a one-digit denominator the decoder returns a dot
followed by the whole numerator, because Python's `s[:-0]` is empty and
`s[-0:]` is the whole string. -/
theorem convertValue_single_digit_denominator (N D : Str) (hN : isSignedDigitStr N)
    (hD : ∀ c ∈ D, c.isDigit) (hlen : D.length = 1) :
    Split.convertValue (N ++ '/' :: D) = some ('.' :: N) := by
  unfold Split.convertValue
  rw [pySplit_append '/' N D (not_slash_mem_of_signed hN) (not_slash_mem_of_digits hD)]
  show some (convertBody N D) = some ('.' :: N)
  unfold convertBody
  have hn : D.length - 1 = 0 := by omega
  obtain ⟨hne, -⟩ := hN
  unfold stripSign at hne
  by_cases hs : N.take 1 = ['-']
  · rw [if_pos hs] at hne
    have hlen1 : ¬ ((N.drop 1).length < 0 + 1) := by
      cases h : N.drop 1 with
      | nil => exact absurd h hne
      | cons c t => simp [h]
    simp only [hn, hs, if_pos rfl, hlen1, if_neg, ite_false, pyDropLast, pyTakeLast, ite_true,
      List.nil_append]
    conv_rhs => rw [eq_neg_cons_of_take1 hs]
  · rw [if_neg hs] at hne
    have hlen1 : ¬ (N.length < 0 + 1) := by
      cases h : N with
      | nil => exact absurd h hne
      | cons c t => simp [h]
    simp only [hn, hs, hlen1, if_neg, ite_false, pyDropLast, pyTakeLast, if_pos rfl, ite_true,
      List.nil_append]

/-- C2 counterexample: the decoder maps the rational string 7/1 to .7, not to
the 7. predicted by the claim. -/
theorem convertValue_seven_over_one :
    Split.convertValue ("7/1".toList) = some (".7".toList) ∧
    Split.convertValue ("7/1".toList) ≠ some ("7.".toList) := by
  constructor
  · decide
  · decide

/-- Witness for C1 at the spec's own examples. -/
theorem convertValue_eq_spec_witness :
    isSignedDigitStr ("1250".toList) ∧ (∀ c ∈ "100".toList, c.isDigit) ∧
    2 ≤ ("100".toList).length ∧
    Split.convertValue ("1250".toList ++ '/' :: "100".toList) = some ("12.50".toList) ∧
    Split.convertValue ("-300".toList ++ '/' :: "100".toList) = some ("-3.00".toList) := by
  refine ⟨by decide, by decide, by decide, ?_, ?_⟩
  · rw [convertValue_eq_spec ("1250".toList) ("100".toList) (by decide) (by decide) (by decide)]
    decide
  · rw [convertValue_eq_spec ("-300".toList) ("100".toList) (by decide) (by decide) (by decide)]
    decide

/-- Witness for the corrected C2 at the input 7/1. -/
theorem convertValue_single_digit_witness :
    isSignedDigitStr ("7".toList) ∧ ("1".toList).length = 1 ∧
    Split.convertValue ("7".toList ++ '/' :: "1".toList) = some (".7".toList) := by
  refine ⟨by decide, by decide, ?_⟩
  rw [convertValue_single_digit_denominator ("7".toList) ("1".toList) (by decide) (by decide)
    (by decide)]
  decide

/-- C9: symbol substitution is total and fail-open: a recognized code maps to
its (non-empty) display symbol, an unrecognized code passes through
unchanged. -/
theorem getCurrencySymbol_fail_open (getSymbol : Str → Option Str) (code : Str) :
    (∀ s, getSymbol code = some s → s ≠ [] → getCurrencySymbol getSymbol code = s) ∧
    (getSymbol code = none → getCurrencySymbol getSymbol code = code) := by
  constructor
  · intro s hs hne
    simp [getCurrencySymbol, hs, hne]
  · intro h
    simp [getCurrencySymbol, h]

/-- Witness for C9: `USD` is mapped, `XYZ` passes through. -/
theorem getCurrencySymbol_fail_open_witness :
    getCurrencySymbol exSymbolTable ("USD".toList) = "$".toList ∧
    getCurrencySymbol exSymbolTable ("XYZ".toList) = "XYZ".toList := by
  constructor
  · exact (getCurrencySymbol_fail_open exSymbolTable ("USD".toList)).1 ("$".toList)
      (by decide) (by decide)
  · exact (getCurrencySymbol_fail_open exSymbolTable ("XYZ".toList)).2 (by decide)

/-- C10: when the referenced account exists but the value or quantity string
is malformed, split construction fails AND the registry it leaves behind
already has the account's used flag set to true. -/
theorem splitInit_marks_used_before_failure (commodity : Str) (aC uS pM : Bool)
    (db : List Account) (sr : SplitRec) (hacc : (dbFind db sr.account).isSome = true)
    (hbad : Split.convertValue sr.value = none ∨ Split.convertValue sr.quantity = none) :
    Split.init commodity aC uS pM db sr = (markUsed db sr.account, none) ∧
    ∀ a ∈ markUsed db sr.account, a.id = sr.account → a.used = true := by
  constructor
  · unfold Split.init
    obtain ⟨acc, hfind⟩ := Option.isSome_iff_exists.mp hacc
    rw [hfind]
    rcases hbad with h | h
    · simp [h]
    · cases hv : Split.convertValue sr.value with
      | none => simp
      | some v => simp [h]
  · intro a ha hid
    rcases List.mem_map.mp ha with ⟨a0, ha0, rfl⟩
    by_cases h : a0.id = sr.account
    · simp [h]
    · rw [if_neg h] at hid ⊢
      exact absurd hid h

/-- Witness for C10 at a one-account registry and a slash-less value string. -/
theorem splitInit_marks_used_witness :
    (dbFind [exRoot] exBadSplitRec.account).isSome = true ∧
    Split.convertValue exBadSplitRec.value = none ∧
    Split.init ("USD".toList) false false false [exRoot] exBadSplitRec =
      (markUsed [exRoot] ("r1".toList), none) ∧
    ({ exRoot with used := true } : Account).used = true := by
  refine ⟨by decide, by decide, ?_, by decide⟩
  exact (splitInit_marks_used_before_failure ("USD".toList) false false false [exRoot]
    exBadSplitRec (by decide) (Or.inl (by decide))).1

/-- C6: the full name of an account is its parent's full name, a colon and
its own name when a non-ROOT parent exists, and just its own name when the
parent is absent or ROOT-typed (so a ROOT ancestor contributes no prefix
segment); `Checking` under ASSET `Assets` under ROOT yields
`Assets:Checking`. -/
theorem fullName_spec :
    (∀ (fuel : Nat) (db : Str → Option Account) (a : Account),
      (a.parent = none → Account.fullName (fuel + 1) db a = some a.name) ∧
      (∀ pid p, a.parent = some pid → db pid = some p → p.type = "ROOT".toList →
        Account.fullName (fuel + 1) db a = some a.name) ∧
      (∀ pid p, a.parent = some pid → db pid = some p → p.type ≠ "ROOT".toList →
        Account.fullName (fuel + 1) db a =
          (Account.fullName fuel db p).map (fun pre => pre ++ ':' :: a.name))) ∧
    Account.fullName 3 (dbFind exTree) exChecking = some ("Assets:Checking".toList) := by
  constructor
  · intro fuel db a
    refine ⟨?_, ?_, ?_⟩
    · intro h
      simp [Account.fullName, h]
    · intro pid p hpid hp hroot
      simp [Account.fullName, hpid, hp, hroot]
    · intro pid p hpid hp hroot
      simp only [Account.fullName, hpid, hp]
      rw [if_neg hroot]
      cases Account.fullName fuel db p <;> simp
  · decide

/-- Witness for C6: each branch of the full-name computation applied in the
concrete three-level registry. -/
theorem fullName_spec_witness :
    Account.fullName 1 (dbFind exTree) exRoot = some ("Root".toList) ∧
    Account.fullName 1 (dbFind exTree) exAssets = some ("Assets".toList) ∧
    Account.fullName 2 (dbFind exTree) exChecking =
      (Account.fullName 1 (dbFind exTree) exAssets).map
        (fun pre => pre ++ ':' :: exChecking.name) := by
  refine ⟨?_, ?_, ?_⟩
  · exact (fullName_spec.1 0 (dbFind exTree) exRoot).1 (by decide)
  · exact (fullName_spec.1 0 (dbFind exTree) exAssets).2.1 ("r1".toList) exRoot
      (by decide) (by decide) (by decide)
  · exact (fullName_spec.1 1 (dbFind exTree) exChecking).2.2 ("as1".toList) exAssets
      (by decide) (by decide) (by decide)

-- ### Helper lemmas about split rendering

theorem toList_indent : "    ".toList = ' ' :: ' ' :: ' ' :: ' ' :: [] := rfl

theorem toList_indentStar : "    * ".toList = ' ' :: ' ' :: ' ' :: ' ' :: '*' :: ' ' :: [] := rfl

theorem toList_spaceStar : " * ".toList = ' ' :: '*' :: ' ' :: [] := rfl

theorem splitStr_eq (fmt : Str → Str) (db : List Account) (s : Split) (acc : Account) (nm : Str)
    (h1 : dbFind db s.accountId = some acc)
    (h2 : Account.fullName db.length (dbFind db) acc = some nm) :
    Split.str fmt db s = some ("    ".toList ++ Split.flagStr s ++ nm ++
      ' ' :: List.replicate (Split.numSpaces (Split.flagStr s).length nm.length
        (Split.valueStr fmt s acc.commodity).length).toNat ' ' ++
      Split.valueStr fmt s acc.commodity ++ Split.memoStr s) := by
  simp only [Split.str, h1, h2]

theorem flagStr_pos (s : Split) (hrec : s.reconciled = true) (hclr : s.allCleared = false) :
    Split.flagStr s = "* ".toList := by
  unfold Split.flagStr
  rw [if_pos ⟨hrec, by simp [hclr]⟩]

theorem flagStr_neg (s : Split) (hc : ¬ (s.reconciled = true ∧ s.allCleared = false)) :
    Split.flagStr s = [] := by
  unfold Split.flagStr
  rw [if_neg]
  intro h
  exact hc ⟨h.1, by simpa using h.2⟩

/-- C8: the rendered split line exists for every split whose account and full
name resolve, the amount is separated from the account name by `1 + max(gap, 0)`
spaces (so at least one even when the gap goes negative), and for a
non-negative gap the amount field ends at the fixed column 81. -/
theorem split_render_padding (fmt : Str → Str) (db : List Account) (s : Split) (acc : Account)
    (nm : Str) (h1 : dbFind db s.accountId = some acc)
    (h2 : Account.fullName db.length (dbFind db) acc = some nm) :
    Split.str fmt db s = some ("    ".toList ++ Split.flagStr s ++ nm ++
      ' ' :: List.replicate (Split.numSpaces (Split.flagStr s).length nm.length
        (Split.valueStr fmt s acc.commodity).length).toNat ' ' ++
      Split.valueStr fmt s acc.commodity ++ Split.memoStr s) ∧
    1 ≤ (' ' :: List.replicate (Split.numSpaces (Split.flagStr s).length nm.length
      (Split.valueStr fmt s acc.commodity).length).toNat ' ').length ∧
    (0 ≤ Split.numSpaces (Split.flagStr s).length nm.length
        (Split.valueStr fmt s acc.commodity).length →
      (4 + ((Split.flagStr s).length : Int) + nm.length +
        (1 + (Split.numSpaces (Split.flagStr s).length nm.length
          (Split.valueStr fmt s acc.commodity).length).toNat) +
        (Split.valueStr fmt s acc.commodity).length = 81)) ∧
    (Split.numSpaces (Split.flagStr s).length nm.length
        (Split.valueStr fmt s acc.commodity).length < 0 →
      (Split.numSpaces (Split.flagStr s).length nm.length
        (Split.valueStr fmt s acc.commodity).length).toNat = 0) := by
  refine ⟨splitStr_eq fmt db s acc nm h1 h2, by simp, ?_, ?_⟩
  · intro h
    unfold Split.numSpaces at h ⊢
    omega
  · intro h
    unfold Split.numSpaces at h ⊢
    omega

/-- Witness for C8 on a concrete split: the account resolves, the line is the
stated concatenation, and the gap is non-negative with the amount ending at
column 81. -/
theorem split_render_padding_witness :
    dbFind [exAcctEUR] exConvSplit.accountId = some exAcctEUR ∧
    Split.str (fun v => v) [exAcctEUR] exConvSplit =
      some ("    ".toList ++ Split.flagStr exConvSplit ++ "Assets".toList ++
        ' ' :: List.replicate (Split.numSpaces (Split.flagStr exConvSplit).length
          ("Assets".toList).length
          (Split.valueStr (fun v => v) exConvSplit exAcctEUR.commodity).length).toNat ' ' ++
        Split.valueStr (fun v => v) exConvSplit exAcctEUR.commodity ++
        Split.memoStr exConvSplit) ∧
    (4 + ((Split.flagStr exConvSplit).length : Int) + ("Assets".toList).length +
      (1 + (Split.numSpaces (Split.flagStr exConvSplit).length ("Assets".toList).length
        (Split.valueStr (fun v => v) exConvSplit exAcctEUR.commodity).length).toNat) +
      (Split.valueStr (fun v => v) exConvSplit exAcctEUR.commodity).length = 81) := by
  have h := split_render_padding (fun v => v) [exAcctEUR] exConvSplit exAcctEUR
    ("Assets".toList) (by decide) (by decide)
  exact ⟨by decide, h.1, h.2.2.1 (by decide)⟩

/-- C4: the rendered split line begins with the flag `* ` ahead of the account
name exactly when the split is reconciled and `allCleared` is off, and the
rendered transaction's first line carries the `* ` marker between the date
and the description exactly when `allCleared` is on. -/
theorem cleared_markers :
    (∀ (fmt : Str → Str) (db : List Account) (s : Split) (acc : Account) (nm : Str),
      dbFind db s.accountId = some acc →
      Account.fullName db.length (dbFind db) acc = some nm →
      nm.take 1 ≠ ['*'] →
      ((∃ r, Split.str fmt db s = some ("    * ".toList ++ r)) ↔
        (s.reconciled = true ∧ s.allCleared = false))) ∧
    (∀ (fmt : Str → Str) (dateFmt : Nat → Str) (db : List Account) (t : Transaction)
        (ls : List Str),
      renderSplits fmt db t.splits = some ls →
      t.description.take 1 ≠ ['*'] →
      ((∃ r, Transaction.str fmt dateFmt db t =
          some (dateFmt t.date ++ " * ".toList ++ t.description ++ r)) ↔
        t.cleared = true)) := by
  constructor
  · intro fmt db s acc nm h1 h2 hstar
    constructor
    · rintro ⟨r, hr⟩
      rw [splitStr_eq fmt db s acc nm h1 h2] at hr
      by_contra hc
      rw [flagStr_neg s hc] at hr
      have hline := Option.some.inj hr
      simp only [toList_indent, toList_indentStar, List.nil_append, List.cons_append,
        List.append_assoc, List.cons.injEq, true_and] at hline
      cases hnm : nm with
      | nil => rw [hnm] at hline; simp at hline
      | cons c t =>
        rw [hnm] at hline
        simp only [List.cons_append, List.cons.injEq] at hline
        exact hstar (by rw [hnm]; simp [hline.1])
    · rintro ⟨hrec, hclr⟩
      refine ⟨nm ++ ' ' :: List.replicate (Split.numSpaces ("* ".toList).length nm.length
        (Split.valueStr fmt s acc.commodity).length).toNat ' ' ++
        Split.valueStr fmt s acc.commodity ++ Split.memoStr s, ?_⟩
      rw [splitStr_eq fmt db s acc nm h1 h2, flagStr_pos s hrec hclr]
      rfl
  · intro fmt dateFmt db t ls hls hstar
    unfold Transaction.str
    rw [hls]
    constructor
    · rintro ⟨r, hr⟩
      have hline := Option.some.inj hr
      by_cases hcl : t.cleared = true
      · exact hcl
      · rw [Bool.not_eq_true] at hcl
        rw [if_neg (by simp [hcl])] at hline
        simp only [toList_spaceStar, List.append_assoc, List.singleton_append,
          List.cons_append, List.nil_append] at hline
        have hrest := List.append_cancel_left hline
        simp only [List.cons.injEq, true_and] at hrest
        cases hd : t.description with
        | nil => rw [hd] at hrest; simp at hrest
        | cons c cs =>
          rw [hd] at hrest
          simp only [List.cons_append, List.cons.injEq] at hrest
          exact absurd (show t.description.take 1 = ['*'] by rw [hd]; simp [hrest.1]) hstar
    · intro hcl
      refine ⟨'\n' :: (joinNL ls ++ ['\n']), ?_⟩
      rw [if_pos hcl]
      simp

/-- Witness for C4: a reconciled split under `allCleared = False` and a
cleared transaction. -/
theorem cleared_markers_witness :
    ((∃ r, Split.str (fun v => v) [exAcctEUR] exRecSplit = some ("    * ".toList ++ r)) ↔
      (exRecSplit.reconciled = true ∧ exRecSplit.allCleared = false)) ∧
    ((∃ r, Transaction.str (fun v => v) (fun _ => "2020-01-01".toList) [exAcctEUR] exTxn =
        some ("2020-01-01".toList ++ " * ".toList ++ exTxn.description ++ r)) ↔
      exTxn.cleared = true) := by
  constructor
  · exact cleared_markers.1 (fun v => v) [exAcctEUR] exRecSplit exAcctEUR ("Assets".toList)
      (by decide) (by decide) (by decide)
  · exact cleared_markers.2 (fun v => v) (fun _ => "2020-01-01".toList) [exAcctEUR] exTxn []
      (by decide) (by decide)

theorem toList_atat : " @@ ".toList = ' ' :: '@' :: '@' :: ' ' :: [] := rfl

theorem not_at_flagStr (s : Split) : '@' ∉ Split.flagStr s := by
  unfold Split.flagStr
  split
  · decide
  · simp

theorem realValue_take {v : Str} (hv : v.take 2 ≠ ['-', '-']) :
    (Split.realValue v).take 1 ≠ ['-'] := by
  unfold Split.realValue
  by_cases h : v.take 1 = ['-']
  · rw [if_pos h]
    have hv2 := eq_neg_cons_of_take1 h
    cases hd : v.drop 1 with
    | nil => simp
    | cons c t =>
      intro hc
      have hcEq : c = '-' := by simpa using hc
      apply hv
      rw [hv2, hd, hcEq]
      simp
  · rw [if_neg h]
    exact h

theorem not_at_realValue {v : Str} (hv : '@' ∉ v) : '@' ∉ Split.realValue v := by
  unfold Split.realValue
  split
  · intro h
    exact hv (List.mem_of_mem_drop h)
  · exact hv

/-- C3: a split on an account whose native commodity differs from the
transaction's commodity renders (in code mode) a line containing exactly one
`@@`, of the form `quantity accountCommodity @@ value transactionCommodity`,
where the value side has its leading minus stripped and is never
minus-prefixed. -/
theorem conversion_split_render (fmt : Str → Str) (db : List Account) (s : Split)
    (acc : Account) (nm : Str)
    (h1 : dbFind db s.accountId = some acc)
    (h2 : Account.fullName db.length (dbFind db) acc = some nm)
    (hsym : s.useSymbols = false) (hdiff : s.commodity ≠ acc.commodity)
    (hnm : '@' ∉ nm) (hq : '@' ∉ s.quantity) (hac : '@' ∉ acc.commodity)
    (hv : '@' ∉ s.value) (hc : '@' ∉ s.commodity) (hm : '@' ∉ Split.memoStr s)
    (hmm : s.value.take 2 ≠ ['-', '-']) :
    ∃ k A B,
      A = "    ".toList ++ Split.flagStr s ++ nm ++ ' ' :: List.replicate k ' ' ++
        s.quantity ++ ' ' :: acc.commodity ++ [' '] ∧
      B = ' ' :: (Split.realValue s.value ++ ' ' :: s.commodity ++ Split.memoStr s) ∧
      Split.str fmt db s = some (A ++ '@' :: '@' :: B) ∧
      '@' ∉ A ∧ '@' ∉ B ∧ (Split.realValue s.value).take 1 ≠ ['-'] := by
  have hval : Split.valueStr fmt s acc.commodity =
      s.quantity ++ ' ' :: acc.commodity ++ " @@ ".toList ++ Split.realValue s.value ++
        ' ' :: s.commodity := by
    unfold Split.valueStr
    rw [if_neg hdiff, if_neg (by simp [hsym])]
  have hsp : ('@' : Char) ≠ ' ' := by decide
  have hflag := not_at_flagStr s
  have hrv := not_at_realValue hv
  refine ⟨(Split.numSpaces (Split.flagStr s).length nm.length
      (Split.valueStr fmt s acc.commodity).length).toNat, _, _, rfl, rfl, ?_, ?_, ?_,
      realValue_take hmm⟩
  · rw [splitStr_eq fmt db s acc nm h1 h2, hval]
    simp [toList_indent, toList_atat, List.append_assoc]
  · simp [toList_indent, List.mem_append, List.mem_cons, List.mem_replicate, hsp, hflag,
      hnm, hq, hac]
  · simp [List.mem_append, List.mem_cons, hsp, hrv, hc, hm]

/-- Witness for C3: the 100.00 EUR against -110.00 USD conversion split. -/
theorem conversion_split_render_witness :
    exConvSplit.useSymbols = false ∧
    exConvSplit.commodity ≠ exAcctEUR.commodity ∧
    (∃ k A B,
      A = "    ".toList ++ Split.flagStr exConvSplit ++ "Assets".toList ++
        ' ' :: List.replicate k ' ' ++ exConvSplit.quantity ++
        ' ' :: exAcctEUR.commodity ++ [' '] ∧
      B = ' ' :: (Split.realValue exConvSplit.value ++ ' ' :: exConvSplit.commodity ++
        Split.memoStr exConvSplit) ∧
      Split.str (fun v => v) [exAcctEUR] exConvSplit = some (A ++ '@' :: '@' :: B) ∧
      '@' ∉ A ∧ '@' ∉ B ∧ (Split.realValue exConvSplit.value).take 1 ≠ ['-']) := by
  refine ⟨by decide, by decide, ?_⟩
  exact conversion_split_render (fun v => v) [exAcctEUR] exConvSplit exAcctEUR
    ("Assets".toList) (by decide) (by decide) (by decide) (by decide) (by decide) (by decide)
    (by decide) (by decide) (by decide) (by decide) (by decide)

-- ### Stability of the date sort

theorem filter_orderedInsert (d : Nat) (a : Transaction) :
    ∀ l : List Transaction,
      (List.orderedInsert dateLe a l).filter (fun t => t.date == d) =
        if a.date = d then a :: l.filter (fun t => t.date == d)
        else l.filter (fun t => t.date == d)
  | [] => by
    by_cases h : a.date = d
    · have hb : (a.date == d) = true := by simp [h]
      simp [List.orderedInsert, List.filter_cons, hb, h]
    · have hb : (a.date == d) = false := by simp [h]
      simp [List.orderedInsert, List.filter_cons, hb, h]
  | b :: l => by
    unfold List.orderedInsert
    by_cases hab : dateLe a b
    · rw [if_pos hab]
      by_cases h : a.date = d
      · have hb : (a.date == d) = true := by simp [h]
        simp [List.filter_cons, hb, h]
      · have hb : (a.date == d) = false := by simp [h]
        simp [List.filter_cons, hb, h]
    · rw [if_neg hab]
      have hlt : b.date < a.date := by
        unfold dateLe at hab
        omega
      by_cases h : a.date = d
      · have hbd : (b.date == d) = false := by
          have : ¬ (b.date = d) := by omega
          simp [this]
        simp [List.filter_cons, hbd, h, filter_orderedInsert d a l]
      · have hb : (a.date == d) = false := by simp [h]
        by_cases hbd : b.date = d
        · have hbd2 : (b.date == d) = true := by simp [hbd]
          simp [List.filter_cons, hbd2, h, filter_orderedInsert d a l]
        · have hbd2 : (b.date == d) = false := by simp [hbd]
          simp [List.filter_cons, hbd2, h, filter_orderedInsert d a l]

theorem filter_sortTransactions (d : Nat) :
    ∀ ts : List Transaction,
      (sortTransactions ts).filter (fun t => t.date == d) =
        ts.filter (fun t => t.date == d)
  | [] => rfl
  | t :: ts => by
    have ih := filter_sortTransactions d ts
    unfold sortTransactions at ih ⊢
    unfold List.insertionSort
    rw [filter_orderedInsert d t (List.insertionSort dateLe ts)]
    by_cases h : t.date = d
    · have hb : (t.date == d) = true := by simp [h]
      simp [List.filter_cons, hb, h, ih]
    · have hb : (t.date == d) = false := by simp [h]
      simp [List.filter_cons, hb, h, ih]

/-- C5: the rendered transactions section lists the transactions sorted into
non-decreasing date order, equal dates keeping their document order (the sort
is stable and keyed by date only). -/
theorem transactions_sorted_stable :
    (∀ ts : List Transaction, List.Sorted dateLe (sortTransactions ts)) ∧
    (∀ (ts : List Transaction) (d : Nat),
      (sortTransactions ts).filter (fun t => t.date == d) =
        ts.filter (fun t => t.date == d)) ∧
    (∀ (fmt : Str → Str) (dateFmt : Nat → Str) (db : List Account) (ts : List Transaction)
        (bs : List Str),
      addTransactions.renderTxns fmt dateFmt db (sortTransactions ts) = some bs →
      addTransactions fmt dateFmt db ts =
        some ("\n\n;;Transactions\n\n".toList ++ (bs.map (fun b => '\n' :: b)).flatten)) := by
  refine ⟨fun ts => List.sorted_insertionSort dateLe ts, ?_, ?_⟩
  · intro ts d
    exact filter_sortTransactions d ts
  · intro fmt dateFmt db ts bs h
    unfold addTransactions
    rw [h]
    rfl

/-- Witness for C5: dates 7,3,3 in document order sort to 3,3,7 with the tie
keeping document order, and the section renders the sorted list. -/
theorem transactions_sorted_stable_witness :
    List.Sorted dateLe (sortTransactions exTs) ∧
    (sortTransactions exTs).filter (fun t => t.date == 3) =
      exTs.filter (fun t => t.date == 3) ∧
    addTransactions (fun v => v) (fun _ => "d".toList) [] exTs =
      some ("\n\n;;Transactions\n\n".toList ++
        ((["d b\n\n".toList, "d c\n\n".toList, "d a\n\n".toList]).map
          (fun b => '\n' :: b)).flatten) := by
  refine ⟨transactions_sorted_stable.1 exTs, transactions_sorted_stable.2.1 exTs 3, ?_⟩
  exact transactions_sorted_stable.2.2 (fun v => v) (fun _ => "d".toList) [] exTs
    ["d b\n\n".toList, "d c\n\n".toList, "d a\n\n".toList] (by decide)

-- ### The registry after a successful load

theorem map_bumpUsed_nil : ∀ l : List Account, l.map (bumpUsed []) = l
  | [] => rfl
  | x :: xs => by simp [bumpUsed, map_bumpUsed_nil xs]

theorem bumpUsed_single (sr : SplitRec) (srs : List SplitRec) (a : Account) :
    bumpUsed srs (if a.id = sr.account then { a with used := true } else a) =
      bumpUsed (sr :: srs) a := by
  by_cases h1 : a.id = sr.account
  · rw [if_pos h1]
    unfold bumpUsed
    dsimp only
    by_cases h2 : ∃ sr' ∈ srs, a.id = sr'.account
    · rw [if_pos h2, if_pos ⟨sr, List.mem_cons_self sr srs, h1⟩]
    · rw [if_neg h2, if_pos ⟨sr, List.mem_cons_self sr srs, h1⟩]
  · rw [if_neg h1]
    unfold bumpUsed
    by_cases h2 : ∃ sr' ∈ srs, a.id = sr'.account
    · obtain ⟨sr', hm, ha⟩ := h2
      rw [if_pos ⟨sr', hm, ha⟩, if_pos ⟨sr', List.mem_cons_of_mem sr hm, ha⟩]
    · rw [if_neg h2, if_neg ?_]
      rintro ⟨sr', hm, ha⟩
      rcases List.mem_cons.mp hm with rfl | hm2
      · exact h1 ha
      · exact h2 ⟨sr', hm2, ha⟩

theorem bumpUsed_append (s1 s2 : List SplitRec) (a : Account) :
    bumpUsed s2 (bumpUsed s1 a) = bumpUsed (s1 ++ s2) a := by
  unfold bumpUsed
  by_cases h1 : ∃ sr ∈ s1, a.id = sr.account
  · rw [if_pos h1]
    dsimp only
    obtain ⟨sr, hm, ha⟩ := h1
    by_cases h2 : ∃ sr' ∈ s2, a.id = sr'.account
    · rw [if_pos h2, if_pos ⟨sr, List.mem_append_left s2 hm, ha⟩]
    · rw [if_neg h2, if_pos ⟨sr, List.mem_append_left s2 hm, ha⟩]
  · rw [if_neg h1]
    by_cases h2 : ∃ sr' ∈ s2, a.id = sr'.account
    · obtain ⟨sr', hm, ha⟩ := h2
      rw [if_pos ⟨sr', hm, ha⟩, if_pos ⟨sr', List.mem_append_right s1 hm, ha⟩]
    · rw [if_neg h2, if_neg ?_]
      rintro ⟨sr', hm, ha⟩
      rcases List.mem_append.mp hm with hm1 | hm2
      · exact h1 ⟨sr', hm1, ha⟩
      · exact h2 ⟨sr', hm2, ha⟩

theorem splitInit_db (c : Str) (aC uS pM : Bool) (db : List Account) (sr : SplitRec)
    (db1 : List Account) (s : Split)
    (h : Split.init c aC uS pM db sr = (db1, some s)) : db1 = markUsed db sr.account := by
  simp only [Split.init] at h
  cases hf : dbFind db sr.account with
  | none => simp only [hf] at h; simp at h
  | some acc =>
    simp only [hf] at h
    cases hv : Split.convertValue sr.value with
    | none => simp only [hv] at h; simp at h
    | some v =>
      simp only [hv] at h
      cases hq : Split.convertValue sr.quantity with
      | none => simp only [hq] at h; simp at h
      | some q =>
        simp only [hq, Prod.mk.injEq] at h
        exact h.1.symm

theorem initSplits_db (c : Str) (aC uS pM : Bool) :
    ∀ (srs : List SplitRec) (db db' : List Account) (ss : List Split),
      initSplits c aC uS pM db srs = (db', some ss) → db' = db.map (bumpUsed srs)
  | [], db, db', ss => by
    intro h
    simp only [initSplits, Prod.mk.injEq] at h
    rw [← h.1, map_bumpUsed_nil]
  | sr :: rest, db, db', ss => by
    intro h
    simp only [initSplits] at h
    cases hsi : Split.init c aC uS pM db sr with
    | mk db1 os =>
      simp only [hsi] at h
      cases os with
      | none => simp at h
      | some s =>
        cases hrec : initSplits c aC uS pM db1 rest with
        | mk db2 os2 =>
          simp only [hrec] at h
          cases os2 with
          | none => simp at h
          | some ss2 =>
            simp only [Prod.mk.injEq] at h
            have hdb1 : db1 = markUsed db sr.account := splitInit_db c aC uS pM db sr db1 s hsi
            have hdb2 : db2 = db1.map (bumpUsed rest) :=
              initSplits_db c aC uS pM rest db1 db2 ss2 hrec
            rw [← h.1, hdb2, hdb1]
            unfold markUsed
            rw [List.map_map]
            apply List.map_congr_left
            intro a _
            exact bumpUsed_single sr rest a

theorem txnInit_db (aC uS pM : Bool) (db : List Account) (tr : TxRec)
    (db1 : List Account) (t : Transaction)
    (h : Transaction.init aC uS pM db tr = (db1, some t)) :
    db1 = db.map (bumpUsed tr.splits) := by
  simp only [Transaction.init] at h
  cases hrec : initSplits tr.commodity aC uS pM db tr.splits with
  | mk dbA osA =>
    simp only [hrec] at h
    cases osA with
    | none => simp at h
    | some ss =>
      simp only [Prod.mk.injEq] at h
      rw [← h.1]
      exact initSplits_db tr.commodity aC uS pM tr.splits db dbA ss hrec

theorem loadTransactions_db (aC uS pM : Bool) :
    ∀ (txs : List TxRec) (db db' : List Account) (ts : List Transaction),
      loadTransactions aC uS pM db txs = (db', some ts) →
      db' = db.map (bumpUsed (allSplitsOf txs))
  | [], db, db', ts => by
    intro h
    simp only [loadTransactions, Prod.mk.injEq] at h
    rw [← h.1]
    show db = db.map (bumpUsed (allSplitsOf []))
    rw [show allSplitsOf [] = [] from rfl, map_bumpUsed_nil]
  | tr :: rest, db, db', ts => by
    intro h
    simp only [loadTransactions] at h
    cases hti : Transaction.init aC uS pM db tr with
    | mk db1 ot =>
      simp only [hti] at h
      cases ot with
      | none => simp at h
      | some t =>
        cases hrec : loadTransactions aC uS pM db1 rest with
        | mk db2 ots =>
          simp only [hrec] at h
          cases ots with
          | none => simp at h
          | some ts2 =>
            simp only [Prod.mk.injEq] at h
            have hdb1 : db1 = db.map (bumpUsed tr.splits) := txnInit_db aC uS pM db tr db1 t hti
            have hdb2 : db2 = db1.map (bumpUsed (allSplitsOf rest)) :=
              loadTransactions_db aC uS pM rest db1 db2 ts2 hrec
            rw [← h.1, hdb2, hdb1, List.map_map]
            show _ = db.map (bumpUsed (tr.splits ++ allSplitsOf rest))
            apply List.map_congr_left
            intro a _
            exact bumpUsed_append tr.splits (allSplitsOf rest) a

theorem used_registerFold (recs : List AccountRec) :
    ∀ db : List Account, (∀ a ∈ db, a.used = false) →
      ∀ a ∈ recs.foldl (fun db r => registerAccount db (mkAccount r)) db, a.used = false := by
  induction recs with
  | nil => intro db hdb a ha; exact hdb a ha
  | cons r rest ih =>
    intro db hdb a ha
    refine ih (registerAccount db (mkAccount r)) ?_ a ha
    intro b hb
    unfold registerAccount at hb
    by_cases hc : ∃ x ∈ db, x.id = (mkAccount r).id
    · rw [if_pos hc] at hb
      rcases List.mem_map.mp hb with ⟨b0, hb0, rfl⟩
      by_cases he : b0.id = (mkAccount r).id
      · rw [if_pos he]; rfl
      · rw [if_neg he]; exact hdb b0 hb0
    · rw [if_neg hc] at hb
      rcases List.mem_append.mp hb with hb1 | hb1
      · exact hdb b hb1
      · rw [List.mem_singleton.mp hb1]; rfl

theorem used_loadAccounts (recs : List AccountRec) (a : Account)
    (ha : a ∈ loadAccounts recs) : a.used = false :=
  used_registerFold recs [] (by simp) a ha

theorem mem_allSplitsOf (sr : SplitRec) :
    ∀ txs : List TxRec, sr ∈ allSplitsOf txs ↔ ∃ tr ∈ txs, sr ∈ tr.splits
  | [] => by simp [allSplitsOf]
  | tr :: rest => by
    simp [allSplitsOf, List.mem_append, mem_allSplitsOf sr rest]

/-- C7: after a successful load, an account's used flag is true exactly when
some split of the document references it, and the accounts section renders a
block (preceded by a blank line) for exactly the used accounts, in registry
order. -/
theorem accounts_section_used (aC uS pM : Bool) (accRecs : List AccountRec)
    (txRecs : List TxRec) (db' : List Account) (txs : List Transaction)
    (hload : loadBook aC uS pM accRecs txRecs = (db', some txs)) :
    (∀ a ∈ db', (a.used = true ↔ ∃ tr ∈ txRecs, ∃ sr ∈ tr.splits, sr.account = a.id)) ∧
    (∀ bs, renderAccounts db' (db'.filter (fun a => a.used)) = some bs →
      addAccounts db' = some ("\n\n;; Account Definitions\n\n".toList ++
        (bs.map (fun b => '\n' :: b)).flatten)) := by
  have hdb : db' = (loadAccounts accRecs).map (bumpUsed (allSplitsOf txRecs)) :=
    loadTransactions_db aC uS pM txRecs (loadAccounts accRecs) db' txs hload
  constructor
  · intro a ha
    rw [hdb] at ha
    rcases List.mem_map.mp ha with ⟨a0, ha0, rfl⟩
    have h0 : a0.used = false := used_loadAccounts accRecs a0 ha0
    unfold bumpUsed
    by_cases hc : ∃ sr ∈ allSplitsOf txRecs, a0.id = sr.account
    · rw [if_pos hc]
      constructor
      · intro _
        obtain ⟨sr, hm, he⟩ := hc
        obtain ⟨tr, htr, hsr⟩ := (mem_allSplitsOf sr txRecs).mp hm
        exact ⟨tr, htr, sr, hsr, he.symm⟩
      · intro _
        rfl
    · rw [if_neg hc]
      constructor
      · intro hu
        rw [h0] at hu
        exact absurd hu (by simp)
      · rintro ⟨tr, htr, sr, hsr, he⟩
        exact absurd (⟨sr, (mem_allSplitsOf sr txRecs).mpr ⟨tr, htr, hsr⟩, he.symm⟩ :
          ∃ sr ∈ allSplitsOf txRecs, a0.id = sr.account) hc
  · intro bs h
    unfold addAccounts
    rw [h]
    rfl

/-- Witness for C7: two accounts, one referenced by the single transaction's
single split; only that account is used and only its block is rendered. -/
theorem accounts_section_used_witness :
    loadBook false false false [exCashRec, exIgnoredRec] [exTxRec1] =
      (exDbAfter, some [exTxnAfter]) ∧
    (exCashUsed.used = true ↔
      ∃ tr ∈ [exTxRec1], ∃ sr ∈ tr.splits, sr.account = exCashUsed.id) ∧
    addAccounts exDbAfter = some ("\n\n;; Account Definitions\n\n".toList ++
      ((["account Cash\n    note  (type: ASSET)\n".toList]).map
        (fun b => '\n' :: b)).flatten) := by
  have h := accounts_section_used false false false [exCashRec, exIgnoredRec] [exTxRec1]
    exDbAfter [exTxnAfter] (by decide)
  exact ⟨by decide, h.1 exCashUsed (by decide),
    h.2 ["account Cash\n    note  (type: ASSET)\n".toList] (by decide)⟩
